import Mathlib

/-!
# Verification of the bwell-logkit core

A shallow embedding of the core of the `bwell-logkit` Python library
(modules `logs.py`, `scene.py`, `reader.py`, `exceptions.py`, `types.py`)
together with proofs about the embedded operations.

Modelling conventions:

* A log record (Python: `dict[str, Any]`) is embedded as a structure holding
  the four reserved keys the core reads (`myType`, `timestamp`,
  `msSinceEpoch`, `sceneName`), each an `Option` (`none` = key absent), plus
  an opaque `payload` standing for all remaining key/value pairs.  The
  canonical fingerprint used for deduplication
  (`json.dumps(record, sort_keys=True)`) is injective on dict values, so
  fingerprint equality is embedded as structural equality of records.
* Timestamps (`timestamp`, game-time seconds) and epoch times
  (`msSinceEpoch`) are embedded as `Int`.  All core logic is purely
  order-theoretic in these fields (comparisons, maxima, sorting), so any
  linearly ordered carrier is faithful.
* `RecordTypes` is a plain Python `Enum` (no `str` mixin and no custom
  equality in `types.py`): a member compares equal only to itself, never to
  its raw string value.  The scene-marker test of `scene.py` compares the
  string type tag to the member `RecordTypes.SCENE_ENTRY` and is therefore
  constantly false; it is embedded as such (`isSceneEntry`).
* Python's stable `list.sort(key=...)` is embedded as Mathlib's
  `List.insertionSort`, which is a stable sort.
* Python strings are embedded as `List Char` in the reader/healer model.
* Metadata (`dict[str, Any]`) is embedded as an association list with opaque
  string values; the core only stores and copies it.
-/

/-- A bWell log record: the reserved fields read by the core, plus an opaque
payload standing for every other key of the underlying JSON object.
`none` means the key is absent from the record. -/
structure Record where
  myType : Option String
  timestamp : Option Int
  msSinceEpoch : Option Int
  sceneName : Option String
  payload : List (String × String)
  deriving DecidableEq, Repr

/-- `r.get(RecordFields.GAME_TIME_SECS, 0)`: the game-time of a record with
a missing game-time defaulting to 0. -/
def gameTime0 (r : Record) : Int := r.timestamp.getD 0

/-- `r.get(RecordFields.MILLIS_SINCE_EPOCH, 0)`: the epoch-millis of a
record, defaulting to 0. -/
def epoch0 (r : Record) : Int := r.msSinceEpoch.getD 0

/-- The sort key comparison used by `_clean_records`
(`cleaned.sort(key=lambda r: r.get(RecordFields.GAME_TIME_SECS, 0))`):
ascending game-time with missing game-time as 0. -/
def recLE (a b : Record) : Prop := gameTime0 a ≤ gameTime0 b

instance : DecidableRel recLE :=
  fun a b => inferInstanceAs (Decidable (gameTime0 a ≤ gameTime0 b))

instance : IsTrans Record recLE := ⟨fun _ _ _ hab hbc => le_trans hab hbc⟩

instance : IsTotal Record recLE := ⟨fun a b => le_total (gameTime0 a) (gameTime0 b)⟩

instance : IsRefl Record recLE := ⟨fun a => le_refl (gameTime0 a)⟩

/-- The deduplication loop of `_clean_records`: walk the list, keep a record
iff its canonical fingerprint has not been seen before, accumulating the set
of seen fingerprints in `seen`. -/
def dedupAux (seen : List Record) : List Record → List Record
  | [] => []
  | r :: rs => if r ∈ seen then dedupAux seen rs else r :: dedupAux (r :: seen) rs

/-- Deduplicate records by canonical fingerprint, keeping first occurrences
(the first half of `_clean_records`). -/
def dedupRecords (records : List Record) : List Record := dedupAux [] records

/-- `_clean_records` from `logs.py`: deduplicate by canonical fingerprint
keeping first occurrences, then stable-sort ascending by game-time
(missing game-time treated as 0). -/
def _clean_records (records : List Record) : List Record :=
  List.insertionSort recLE (dedupRecords records)

/-! ## Scene segmentation (`scene.py`) -/

/-- Information about one scene instance (`SceneInfo` in `types.py`).
The source field `instance` is a Lean keyword and is embedded as `instIdx`. -/
structure SceneInfo where
  name : String
  instIdx : Nat
  start_game_time_secs : Int
  end_game_time_secs : Int
  start_millis_since_epoch : Int
  end_millis_since_epoch : Int
  deriving DecidableEq, Repr

/-- The scene index: an insertion-ordered mapping from scene name to the list
of its instances (Python `dict[str, list[SceneInfo]]`). -/
abbrev SceneIndex := List (String × List SceneInfo)

/-- First-match association lookup, modelling Python dict indexing. -/
def lookupScenes : SceneIndex → String → Option (List SceneInfo)
  | [], _ => none
  | (n, l) :: rest, nm => if n = nm then some l else lookupScenes rest nm

/-- `self._scenes.get(name, [])`: lookup defaulting to the empty list, which
is also how `defaultdict(list)` reads an absent key. -/
def lookupD (idx : SceneIndex) (nm : String) : List SceneInfo :=
  (lookupScenes idx nm).getD []

/-- `scene_name in self._scenes`. -/
def containsName (idx : SceneIndex) (nm : String) : Bool :=
  (lookupScenes idx nm).isSome

/-- `scenes[scene_name].append(info)` on a `defaultdict(list)`: append to the
name's instance list, creating the key at the end in insertion order. -/
def addScene : SceneIndex → String → SceneInfo → SceneIndex
  | [], nm, info => [(nm, [info])]
  | (n, l) :: rest, nm, info =>
    if n = nm then (n, l ++ [info]) :: rest else (n, l) :: addScene rest nm info

/-- `max(timestamps, default=dflt)` in Python. -/
def listMax (l : List Int) (dflt : Int) : Int :=
  match l with
  | [] => dflt
  | x :: xs => xs.foldl max x

/-- The scene-marker test of `scene.py`
(`r.get(RecordFields.RECORD_TYPE) == RecordTypes.SCENE_ENTRY`).
`RecordTypes` is a plain `Enum` — no `str` mixin and no custom equality in
`types.py` — and a plain Enum member compares equal only to itself, never
to its raw string value or to `None`.  A record's type tag is a JSON
string or absent (`Option String` here), so the comparison evaluates to
`False` for every record of the data model, whatever its type tag. -/
def isSceneEntry (_ : Record) : Bool := false

/-- The markers: records passing the scene-marker test (none, since the
test is constantly false). -/
def sceneEntries (records : List Record) : List Record :=
  records.filter isSceneEntry

/-- The end boundary of a scene built from marker `entry`: if a next marker
exists, its game-time/epoch with the current marker's start values as
defaults for missing fields; otherwise the maximum game-time/epoch
(missing as 0) over all records of the session. -/
def sceneBoundary (allRecords : List Record) (entry : Record) (next : Option Record) :
    Int × Int :=
  let start_gt := gameTime0 entry
  let start_epoch := epoch0 entry
  match next with
  | some n => (n.timestamp.getD start_gt, n.msSinceEpoch.getD start_epoch)
  | none =>
    (listMax (allRecords.map gameTime0) start_gt, listMax (allRecords.map epoch0) start_epoch)

/-- The loop body of `SceneManager._build_scene_index`: walk the markers in
sequence order, skipping markers with a missing or empty name, and append a
`SceneInfo` per accepted marker, its instance index being the current count
for that name. -/
def buildSceneIndexAux (allRecords : List Record) : List Record → SceneIndex → SceneIndex
  | [], idx => idx
  | entry :: rest, idx =>
    match entry.sceneName with
    | none => buildSceneIndexAux allRecords rest idx
    | some nm =>
      if nm = "" then buildSceneIndexAux allRecords rest idx
      else
        let b := sceneBoundary allRecords entry rest.head?
        let k := (lookupD idx nm).length
        buildSceneIndexAux allRecords rest
          (addScene idx nm ⟨nm, k, gameTime0 entry, b.1, epoch0 entry, b.2⟩)

/-- `SceneManager._build_scene_index`. -/
def _build_scene_index (records : List Record) : SceneIndex :=
  buildSceneIndexAux records (sceneEntries records) []

/-- `SceneManager`: the record sequence plus the scene index built from it
at construction. -/
structure SceneManager where
  records : List Record
  scenes : SceneIndex
  deriving DecidableEq, Repr

/-- `SceneManager.__init__`. -/
def SceneManager.make (records : List Record) : SceneManager :=
  ⟨records, _build_scene_index records⟩

/-- `SceneManager.list_scenes`. -/
def SceneManager.list_scenes (m : SceneManager) : List String :=
  m.scenes.map (·.1)

/-- `SceneManager.has_scene`: requested instance indices are Python `int`,
embedded as `Int`; the code checks only the upper bound. -/
def SceneManager.has_scene (m : SceneManager) (scene_name : String) (instIdx : Int) : Bool :=
  containsName m.scenes scene_name &&
    decide (instIdx < ((lookupD m.scenes scene_name).length : Int))

/-- `SceneManager.get_scene_count`. -/
def SceneManager.get_scene_count (m : SceneManager) (scene_name : String) : Nat :=
  (lookupD m.scenes scene_name).length

/-- Python list indexing `l[i]` with an `int` index: negative indices count
from the end; a still-out-of-range index is an `IndexError` (`none`). -/
def pyListGet {α : Type} (l : List α) (i : Int) : Option α :=
  if 0 ≤ i then l.get? i.toNat
  else if 0 ≤ i + l.length then l.get? (i + l.length).toNat
  else none

/-- The errors the scene layer can raise: `SceneNotFoundError` with its
diagnostic payload, and Python's built-in `IndexError` (reachable via
unchecked negative indices). -/
inductive SceneError where
  | sceneNotFound (scene_name : String) (instIdx : Int) (available_scenes : List String)
  | indexError
  deriving DecidableEq, Repr

/-- `SceneManager.get_scene_info`. -/
def SceneManager.get_scene_info (m : SceneManager) (scene_name : String) (instIdx : Int) :
    Except SceneError SceneInfo :=
  if m.has_scene scene_name instIdx then
    match pyListGet (lookupD m.scenes scene_name) instIdx with
    | some info => .ok info
    | none => .error .indexError
  else .error (.sceneNotFound scene_name instIdx m.list_scenes)

/-- `SceneManager.get_scene_records`: linear scan keeping records whose
game-time (missing as 0) lies within the scene's closed interval. -/
def SceneManager.get_scene_records (m : SceneManager) (scene_name : String) (instIdx : Int) :
    Except SceneError (List Record) :=
  (m.get_scene_info scene_name instIdx).map fun info =>
    m.records.filter fun r =>
      decide (info.start_game_time_secs ≤ gameTime0 r) &&
        decide (gameTime0 r ≤ info.end_game_time_secs)

/-! ## Sessions and views (`logs.py`) -/

/-- `LogSession`: the cleaned record sequence, the metadata mapping, and the
lazily-cached scene manager (`_scene_manager`, `none` = not yet realized).
Mutation of the cache is embedded as explicit state passing. -/
structure LogSession where
  records : List Record
  metadata : List (String × String)
  scene_manager : Option SceneManager
  deriving DecidableEq, Repr

/-- `LogSession.__init__(records, metadata, initialize_scene_manager=...,
_scene_manager=...)`. -/
def LogSession.make (records : List Record) (metadata : List (String × String))
    (initialize_scene_manager : Bool) (scene_manager : Option SceneManager) : LogSession :=
  let cleaned := _clean_records records
  { records := cleaned
    metadata := metadata
    scene_manager :=
      match scene_manager with
      | some m => some m
      | none =>
        if initialize_scene_manager then some (SceneManager.make cleaned) else none }

/-- The `scene_manager` property: return the cached manager, or build one
from the session's records and cache it.  Returns the manager together with
the post-access session state. -/
def LogSession.scene_manager_get (s : LogSession) : SceneManager × LogSession :=
  match s.scene_manager with
  | some m => (m, s)
  | none =>
    let m := SceneManager.make s.records
    (m, { s with scene_manager := some m })

/-- `LogSession.filter`: a new session over the records satisfying the
predicate, with the same metadata and the currently cached scene manager
passed down as `_scene_manager`. -/
def LogSession.filter (s : LogSession) (condition : Record → Bool) : LogSession :=
  LogSession.make (s.records.filter condition) s.metadata false s.scene_manager

/-- `LogSession.filter_type`: membership of the record's type tag in the
given types (an absent type tag never matches). -/
def LogSession.filter_type (s : LogSession) (record_types : List String) : LogSession :=
  s.filter fun r =>
    match r.myType with
    | some t => record_types.contains t
    | none => false

/-- `LogSession.filter_time_range`: inclusive game-time range filter. -/
def LogSession.filter_time_range (s : LogSession) (startT endT : Int) : LogSession :=
  s.filter fun r => decide (startT ≤ gameTime0 r) && decide (gameTime0 r ≤ endT)

/-- `SceneView`: a session scoped to one scene's records, paired with that
scene's `SceneInfo`. -/
structure SceneView where
  session : LogSession
  scene_info : SceneInfo
  deriving DecidableEq, Repr

/-- `LogSession.scene`: resolve the scene via the (realized) scene manager,
slice its records, and wrap them in a fresh session inside a `SceneView`.
Returns the view together with the post-access session state. -/
def LogSession.scene (s : LogSession) (name : String) (instIdx : Int) :
    Except SceneError (SceneView × LogSession) :=
  let p := s.scene_manager_get
  let mgr := p.1
  if mgr.has_scene name instIdx then
    match mgr.get_scene_info name instIdx, mgr.get_scene_records name instIdx with
    | .ok scene_info, .ok scene_records =>
      .ok (⟨LogSession.make scene_records s.metadata false none, scene_info⟩, p.2)
    | .error e, _ => .error e
    | .ok _, .error e => .error e
  else .error (.sceneNotFound name instIdx mgr.list_scenes)

/-! ## Reading and healing (`reader.py`)

Python strings are embedded as `List Char`.  The JSON values a parser can
produce are embedded as `JValue`; `loads` below is a reference JSON parser
modelling the external `orjson.loads` (restricted to integer numerals and
escape-free strings, which suffices for every statement made about it), and
`read_records` is parameterized by an arbitrary parser. -/

/-- A parsed JSON value. -/
inductive JValue where
  | null
  | bool (b : Bool)
  | num (n : Int)
  | str (s : List Char)
  | arr (elems : List JValue)
  | obj (fields : List (List Char × JValue))
  deriving Repr

/-- Skip JSON whitespace. -/
def skipWs : List Char → List Char
  | [] => []
  | c :: cs =>
    if c = ' ' ∨ c = '\t' ∨ c = '\n' ∨ c = '\r' then skipWs cs else c :: cs

/-- Scan a JSON string body up to the closing quote (escape-free model). -/
def takeStr : List Char → Option (List Char × List Char)
  | [] => none
  | c :: cs =>
    if c = '"' then some ([], cs)
    else
      match takeStr cs with
      | some (s, rest) => some (c :: s, rest)
      | none => none

/-- Decimal digits to a natural number. -/
def digitsToNat (ds : List Char) : Nat :=
  ds.foldl (fun n c => 10 * n + (c.toNat - Char.toNat '0')) 0

mutual

/-- Parse one JSON value (fuel-indexed recursive descent). -/
def parseVal : Nat → List Char → Option (JValue × List Char)
  | 0, _ => none
  | fuel + 1, input =>
    match skipWs input with
    | [] => none
    | c :: cs =>
      if c = 'n' then
        match cs with
        | 'u' :: 'l' :: 'l' :: rest => some (.null, rest)
        | _ => none
      else if c = 't' then
        match cs with
        | 'r' :: 'u' :: 'e' :: rest => some (.bool true, rest)
        | _ => none
      else if c = 'f' then
        match cs with
        | 'a' :: 'l' :: 's' :: 'e' :: rest => some (.bool false, rest)
        | _ => none
      else if c = '"' then
        match takeStr cs with
        | some (s, rest) => some (.str s, rest)
        | none => none
      else if c = '[' then
        match skipWs cs with
        | ']' :: rest => some (.arr [], rest)
        | cs2 =>
          match parseArrItems fuel cs2 with
          | some (vs, rest) => some (.arr vs, rest)
          | none => none
      else if c = '\x7b' then
        match skipWs cs with
        | '\x7d' :: rest => some (.obj [], rest)
        | cs2 =>
          match parseObjItems fuel cs2 with
          | some (fs, rest) => some (.obj fs, rest)
          | none => none
      else if c = '-' then
        match List.span Char.isDigit cs with
        | (ds, rest) => if ds = [] then none else some (.num (-(digitsToNat ds : Int)), rest)
      else if c.isDigit then
        match List.span Char.isDigit (c :: cs) with
        | (ds, rest) => some (.num (digitsToNat ds), rest)
      else none

/-- Parse the comma-separated items of a non-empty JSON array, including the
closing bracket. -/
def parseArrItems : Nat → List Char → Option (List JValue × List Char)
  | 0, _ => none
  | fuel + 1, input =>
    match parseVal fuel input with
    | none => none
    | some (v, rest) =>
      match skipWs rest with
      | ',' :: rest2 =>
        match parseArrItems fuel rest2 with
        | some (vs, rest3) => some (v :: vs, rest3)
        | none => none
      | ']' :: rest2 => some ([v], rest2)
      | _ => none

/-- Parse the members of a non-empty JSON object, including the closing
brace. -/
def parseObjItems : Nat → List Char → Option (List (List Char × JValue) × List Char)
  | 0, _ => none
  | fuel + 1, input =>
    match skipWs input with
    | '"' :: cs =>
      match takeStr cs with
      | none => none
      | some (key, rest) =>
        match skipWs rest with
        | ':' :: rest2 =>
          match parseVal fuel rest2 with
          | none => none
          | some (v, rest3) =>
            match skipWs rest3 with
            | ',' :: rest4 =>
              match parseObjItems fuel rest4 with
              | some (fs, rest5) => some ((key, v) :: fs, rest5)
              | none => none
            | '\x7d' :: rest4 => some ([(key, v)], rest4)
            | _ => none
        | _ => none
    | _ => none

end

/-- Reference JSON parse of a whole text: one value and nothing but trailing
whitespace after it. -/
def loads (s : List Char) : Option JValue :=
  match parseVal (s.length + 1) s with
  | some (v, rest) => if skipWs rest = [] then some v else none
  | none => none

/-- Python `str.strip()`: drop whitespace from both ends. -/
def pyStrip (s : List Char) : List Char :=
  ((s.dropWhile Char.isWhitespace).reverse.dropWhile Char.isWhitespace).reverse

/-- Python `str.endswith(suffix)`. -/
def pyEndsWith (s suffix : List Char) : Bool :=
  decide (s.drop (s.length - suffix.length) = suffix)

/-- `_heal_json` from `reader.py`: strip, drop one trailing comma, then close
the `"data"` array-in-object shape by suffix inspection (the function never
parses its input). -/
def heal_json (content : List Char) : List Char :=
  let healed := pyStrip content
  if healed = [] then healed
  else
    let healed2 := if pyEndsWith healed [','] then healed.dropLast else healed
    if pyEndsWith healed2 [']', '\x7d'] then healed2
    else if pyEndsWith healed2 [']'] then healed2 ++ ['\x7d']
    else healed2 ++ [']', '\x7d']

/-- The failure modes of `read_records`, one constructor per distinct
`LogReadError` message shape; `parseFailed` carries the underlying parser
error (`ε`). -/
inductive LogReadError (ε : Type) where
  | fileNotFound
  | emptyFile
  | parseFailed (original_error : ε)
  | rootNotObject
  | missingDataArray
  deriving Repr

/-- First-match association lookup on parsed JSON object fields
(`data.get("data")`). -/
def jlookup : List (List Char × JValue) → List Char → Option JValue
  | [], _ => none
  | (k, v) :: rest, key => if k = key then some v else jlookup rest key

/-- The characters of the required top-level key `"data"`. -/
def dataKey : List Char := ['d', 'a', 't', 'a']

/-- The shape validation at the end of `read_records`: the parsed root must
be an object and its `data` key must hold an array, whose elements are
returned unchanged. -/
def extractData {ε : Type} : JValue → Except (LogReadError ε) (List JValue)
  | .obj fields =>
    match jlookup fields dataKey with
    | some (.arr records) => .ok records
    | _ => .error .missingDataArray
  | _ => .error .rootNotObject

/-- `read_records` from `reader.py`, parameterized by the JSON parser
(`orjson.loads`) and by the file content (`none` = file does not exist):
read, strip, remove newlines, fail on empty content, parse with one healing
retry, then validate the top-level shape. -/
def read_records {ε : Type} (parse : List Char → Except ε JValue)
    (file : Option (List Char)) : Except (LogReadError ε) (List JValue) :=
  match file with
  | none => .error .fileNotFound
  | some raw =>
    let content := (pyStrip raw).filter fun c => decide (c ≠ '\n')
    if content = [] then .error .emptyFile
    else
      match parse content with
      | .ok data => extractData data
      | .error _ =>
        match parse (heal_json content) with
        | .ok data => extractData data
        | .error e => .error (.parseFailed e)

/-! ## Concrete fixtures

Small concrete inputs, mirroring the test fixtures of the repository, used
to instantiate the theorems below at concrete values. -/

/-- Fixture: a movement record at game-time 1. -/
def exMove1 : Record := ⟨some "AbsoluteActivityRecord", some 1, some 1000, none, []⟩

/-- Fixture: a scene marker "MainMenu" at game-time 4. -/
def exMark1 : Record := ⟨some "SceneEntryRecord", some 4, some 4000, some "MainMenu", []⟩

/-- Fixture: a scene marker "GameLevel1" at game-time 15. -/
def exMark2 : Record := ⟨some "SceneEntryRecord", some 15, some 15000, some "GameLevel1", []⟩

/-- Fixture: a movement record at game-time 20. -/
def exMove2 : Record := ⟨some "AbsoluteActivityRecord", some 20, some 20000, none, []⟩

/-- Fixture: a small session input with two scenes. -/
def exRecords : List Record := [exMove1, exMark1, exMark2, exMove2]

/-- Fixture: a session over `exRecords` with no scene manager realized. -/
def exSession : LogSession := LogSession.make exRecords [] false none

/-- Fixture: a session over `exRecords` with the scene manager eagerly
realized. -/
def exSessionInit : LogSession := LogSession.make exRecords [] true none

/-- Fixture: a scene manager built by the program over the fixture
records. -/
def exManager : SceneManager := SceneManager.make exRecords

/-- Fixture: a hand-built scene info.  The staged program never populates
a scene index (the marker test is constantly false), so the conditional
scene paths are exercised through a hand-crafted cache. -/
def exInfoW : SceneInfo := ⟨"MainMenu", 0, 4, 15, 4000, 15000⟩

/-- Fixture: a session state whose cache holds a hand-built manager with
one indexed scene instance. -/
def exSessionW : LogSession :=
  { records := _clean_records exRecords
    metadata := []
    scene_manager := some ⟨_clean_records exRecords, [("MainMenu", [exInfoW])]⟩ }

/-- Fixture: the result of the successful scene query on `exSessionW`,
defaulted (the default is never used). -/
def exScenePair : SceneView × LogSession :=
  (exSessionW.scene "MainMenu" 0).toOption.getD
    (⟨LogSession.make [] [] false none, ⟨"", 0, 0, 0, 0, 0⟩⟩, LogSession.make [] [] false none)

/-- Fixture: a concrete filter predicate (keep movement records). -/
def exPred : Record → Bool := fun r => decide (r.myType = some "AbsoluteActivityRecord")

/-- A concrete JSON parser for instantiating the reader theorems: the
reference parse with a unit error. -/
def loadsParse : List Char → Except Unit JValue := fun s =>
  match loads s with
  | some v => Except.ok v
  | none => Except.error ()

/-! Basic lemmas about the deduplication pass. -/

theorem mem_dedupAux {x : Record} :
    ∀ {l seen : List Record}, x ∈ dedupAux seen l ↔ x ∈ l ∧ x ∉ seen := by
  intro l
  induction l with
  | nil => intro seen; simp [dedupAux]
  | cons r rs ih =>
    intro seen
    by_cases hr : r ∈ seen
    · rw [dedupAux, if_pos hr, ih]
      constructor
      · rintro ⟨hx, hnx⟩; exact ⟨List.mem_cons_of_mem _ hx, hnx⟩
      · rintro ⟨hx, hnx⟩
        rcases List.mem_cons.mp hx with rfl | hx
        · exact absurd hr hnx
        · exact ⟨hx, hnx⟩
    · rw [dedupAux, if_neg hr]
      constructor
      · intro hmem
        rcases List.mem_cons.mp hmem with rfl | hmem
        · exact ⟨List.mem_cons_self _ _, hr⟩
        · obtain ⟨hx, hnx⟩ := ih.mp hmem
          exact ⟨List.mem_cons_of_mem _ hx,
            fun hin => hnx (List.mem_cons_of_mem _ hin)⟩
      · rintro ⟨hx, hnx⟩
        by_cases hxr : x = r
        · exact hxr ▸ List.mem_cons_self _ _
        · rcases List.mem_cons.mp hx with h | hx2
          · exact absurd h hxr
          · refine List.mem_cons_of_mem _ (ih.mpr ⟨hx2, fun hin => ?_⟩)
            rcases List.mem_cons.mp hin with h | hin
            · exact hxr h
            · exact hnx hin

theorem nodup_dedupAux : ∀ (l seen : List Record), (dedupAux seen l).Nodup := by
  intro l
  induction l with
  | nil => intro seen; simp [dedupAux]
  | cons r rs ih =>
    intro seen
    by_cases hr : r ∈ seen
    · simpa [dedupAux, if_pos hr] using ih seen
    · rw [dedupAux, if_neg hr]
      exact List.nodup_cons.mpr
        ⟨fun hmem => (mem_dedupAux.mp hmem).2 (List.mem_cons_self r seen), ih (r :: seen)⟩

/-- Records already free of duplicate fingerprints pass through the
deduplication loop unchanged. -/
theorem dedupAux_eq_self : ∀ {l seen : List Record}, l.Nodup →
    (∀ x ∈ l, x ∉ seen) → dedupAux seen l = l := by
  intro l
  induction l with
  | nil => intro seen _ _; rfl
  | cons r rs ih =>
    intro seen hnd hdisj
    have hr : r ∉ seen := hdisj r (List.mem_cons_self r rs)
    have hnd' := List.nodup_cons.mp hnd
    rw [dedupAux, if_neg hr, ih hnd'.2]
    intro x hx
    intro hmem
    rcases List.mem_cons.mp hmem with rfl | hmem
    · exact hnd'.1 hx
    · exact hdisj x (List.mem_cons_of_mem _ hx) hmem

theorem nodup_dedupRecords (records : List Record) : (dedupRecords records).Nodup :=
  nodup_dedupAux records []

theorem dedupRecords_eq_self {l : List Record} (h : l.Nodup) : dedupRecords l = l :=
  dedupAux_eq_self h (by simp)

/-- Dedup-filter commutation, generalized over the seen-set accumulators:
accumulators agreeing on records accepted by `q` produce the same
`q`-filtered output. -/
theorem filter_dedupAux (q : Record → Bool) :
    ∀ (l seen1 seen2 : List Record),
      (∀ y, q y = true → (y ∈ seen1 ↔ y ∈ seen2)) →
      dedupAux seen1 (l.filter q) = (dedupAux seen2 l).filter q := by
  intro l
  induction l with
  | nil => intro seen1 seen2 _; rfl
  | cons r rs ih =>
    intro seen1 seen2 hsame
    by_cases hq : q r = true
    · rw [List.filter_cons_of_pos hq]
      by_cases hr2 : r ∈ seen2
      · have hr1 : r ∈ seen1 := (hsame r hq).mpr hr2
        rw [dedupAux, if_pos hr1, dedupAux, if_pos hr2]
        exact ih seen1 seen2 hsame
      · have hr1 : r ∉ seen1 := fun h => hr2 ((hsame r hq).mp h)
        rw [dedupAux, if_neg hr1, dedupAux, if_neg hr2, List.filter_cons_of_pos hq]
        refine congrArg (r :: ·) (ih (r :: seen1) (r :: seen2) ?_)
        intro y hy
        constructor
        · intro hmem
          rcases List.mem_cons.mp hmem with rfl | hmem
          · exact List.mem_cons_self _ _
          · exact List.mem_cons_of_mem _ ((hsame y hy).mp hmem)
        · intro hmem
          rcases List.mem_cons.mp hmem with rfl | hmem
          · exact List.mem_cons_self _ _
          · exact List.mem_cons_of_mem _ ((hsame y hy).mpr hmem)
    · rw [List.filter_cons_of_neg hq]
      by_cases hr2 : r ∈ seen2
      · rw [dedupAux, if_pos hr2]
        exact ih seen1 seen2 hsame
      · rw [dedupAux, if_neg hr2, List.filter_cons_of_neg hq]
        refine ih seen1 (r :: seen2) ?_
        intro y hy
        have hyr : y ≠ r := fun h => hq (h ▸ hy)
        rw [hsame y hy, List.mem_cons]
        constructor
        · intro h; exact Or.inr h
        · rintro (h | h)
          · exact absurd h hyr
          · exact h

/-- Deduplication commutes with filtering. -/
theorem filter_dedupRecords (q : Record → Bool) (l : List Record) :
    dedupRecords (l.filter q) = (dedupRecords l).filter q :=
  filter_dedupAux q l [] [] (by simp)

/-- Inserting an element below every element of a list puts it in front. -/
theorem orderedInsert_of_forall_le {x : Record} :
    ∀ {m : List Record}, (∀ z ∈ m, recLE x z) → List.orderedInsert recLE x m = x :: m
  | [], _ => rfl
  | y :: ys, h => by
    rw [List.orderedInsert, if_pos (h y (List.mem_cons_self y ys))]

/-- Filtering distributes over ordered insertion into a sorted list. -/
theorem filter_orderedInsert (q : Record → Bool) (x : Record) :
    ∀ (m : List Record), m.Sorted recLE →
      (List.orderedInsert recLE x m).filter q =
        if q x then List.orderedInsert recLE x (m.filter q) else m.filter q := by
  intro m
  induction m with
  | nil =>
    intro _
    by_cases hqx : q x = true <;> simp [List.orderedInsert, hqx]
  | cons y ys ih =>
    intro hs
    have hys : ys.Sorted recLE := hs.of_cons
    have hy : ∀ b ∈ ys, recLE y b := List.rel_of_sorted_cons hs
    by_cases hxy : recLE x y
    · rw [List.orderedInsert, if_pos hxy]
      by_cases hqx : q x = true
      · by_cases hqy : q y = true
        · rw [List.filter_cons_of_pos hqx, List.filter_cons_of_pos hqy, if_pos hqx,
            List.orderedInsert, if_pos hxy]
        · rw [List.filter_cons_of_pos hqx, List.filter_cons_of_neg hqy, if_pos hqx]
          refine (orderedInsert_of_forall_le ?_).symm
          intro z hz
          have hz2 := List.mem_filter.mp hz
          exact le_trans hxy (hy z hz2.1)
      · rw [List.filter_cons_of_neg hqx, if_neg hqx]
    · rw [List.orderedInsert, if_neg hxy]
      by_cases hqy : q y = true
      · rw [List.filter_cons_of_pos hqy, ih hys]
        by_cases hqx : q x = true
        · rw [if_pos hqx, if_pos hqx, List.filter_cons_of_pos hqy, List.orderedInsert,
            if_neg hxy]
        · rw [if_neg hqx, if_neg hqx, List.filter_cons_of_pos hqy]
      · rw [List.filter_cons_of_neg hqy, ih hys]
        by_cases hqx : q x = true
        · rw [if_pos hqx, if_pos hqx, List.filter_cons_of_neg hqy]
        · rw [if_neg hqx, if_neg hqx, List.filter_cons_of_neg hqy]

/-- A stable sort commutes with filtering. -/
theorem filter_insertionSort (q : Record → Bool) :
    ∀ l : List Record,
      (List.insertionSort recLE l).filter q = List.insertionSort recLE (l.filter q) := by
  intro l
  induction l with
  | nil => rfl
  | cons x xs ih =>
    rw [List.insertionSort,
      filter_orderedInsert q x _ (List.sorted_insertionSort recLE xs), List.filter_cons]
    by_cases hqx : q x = true
    · rw [if_pos hqx, ih]
      simp only [hqx, if_true, List.insertionSort]
    · rw [if_neg hqx, ih]
      simp only [hqx, Bool.false_eq_true, if_false]

/-- The normalizer `_clean_records` commutes with filtering. -/
theorem filter_clean_records (q : Record → Bool) (l : List Record) :
    _clean_records (l.filter q) = (_clean_records l).filter q := by
  rw [_clean_records, _clean_records, filter_dedupRecords, ← filter_insertionSort]

/-- The output of `_clean_records` is sorted ascending by game-time. -/
theorem clean_records_sorted (records : List Record) :
    (_clean_records records).Sorted recLE :=
  List.sorted_insertionSort recLE (dedupRecords records)

/-- The output of `_clean_records` has no duplicate fingerprints. -/
theorem clean_records_nodup (records : List Record) : (_clean_records records).Nodup :=
  (List.perm_insertionSort recLE (dedupRecords records)).symm.nodup
    (nodup_dedupRecords records)

/-- `_clean_records` fixes sequences that are already sorted and
duplicate-free. -/
theorem clean_records_eq_self {l : List Record} (hs : l.Sorted recLE) (hn : l.Nodup) :
    _clean_records l = l := by
  rw [_clean_records, dedupRecords_eq_self hn, hs.insertionSort_eq]

/-- Records of a constructed session are the cleaned input. -/
theorem make_records (rs : List Record) (md : List (String × String)) (init : Bool)
    (mgr : Option SceneManager) : (LogSession.make rs md init mgr).records = _clean_records rs :=
  rfl

/-- Records of a filtered session are the cleaned filtered records. -/
theorem filter_records (s : LogSession) (p : Record → Bool) :
    (s.filter p).records = _clean_records (s.records.filter p) :=
  rfl

/-- Record fibers with a fixed game-time are sorted (all keys are equal). -/
theorem sorted_filter_fiber (k : Int) :
    ∀ l : List Record, (l.filter fun r => decide (gameTime0 r = k)).Sorted recLE := by
  intro l
  induction l with
  | nil => exact List.sorted_nil
  | cons x xs ih =>
    by_cases h : gameTime0 x = k
    · rw [List.filter_cons_of_pos (by simpa using h)]
      refine List.Pairwise.cons ?_ ih
      intro y hy
      have h2 : gameTime0 y = k := by simpa using (List.mem_filter.mp hy).2
      exact le_of_eq (by rw [h, h2])
    · rw [List.filter_cons_of_neg (by simpa using h)]
      exact ih

/-- Stability of the normalizer: the sub-sequence of records at any fixed
game-time is exactly the corresponding sub-sequence of the deduplicated
input, in the same order. -/
theorem clean_records_fiber (records : List Record) (k : Int) :
    (_clean_records records).filter (fun r => decide (gameTime0 r = k)) =
      (dedupRecords records).filter (fun r => decide (gameTime0 r = k)) := by
  rw [_clean_records, filter_insertionSort]
  exact List.Sorted.insertionSort_eq (sorted_filter_fiber k _)

/-- A successful `LogSession.scene` call wraps a freshly constructed session
over the sliced records. -/
theorem scene_ok_shape {s : LogSession} {name : String} {i : Int} {v : SceneView}
    {s2 : LogSession} (h : s.scene name i = Except.ok (v, s2)) :
    ∃ recs info, v = ⟨LogSession.make recs s.metadata false none, info⟩ := by
  by_cases hh : (s.scene_manager_get.1).has_scene name i = true
  · cases hinfo : (s.scene_manager_get.1).get_scene_info name i with
    | error e =>
      simp only [LogSession.scene, hinfo, hh, if_true] at h
      exact Except.noConfusion h
    | ok info =>
      cases hrecs : (s.scene_manager_get.1).get_scene_records name i with
      | error e =>
        simp only [LogSession.scene, hinfo, hrecs, hh, if_true] at h
        exact Except.noConfusion h
      | ok recs =>
        simp only [LogSession.scene, hinfo, hrecs, hh, if_true] at h
        refine ⟨recs, info, ?_⟩
        have := (Prod.mk.injEq _ _ _ _).mp (Except.ok.inj h)
        exact this.1.symm
  · simp only [LogSession.scene, hh, if_false, Bool.false_eq_true] at h
    exact Except.noConfusion h

/-- C2: normalization is idempotent: cleaning an already-cleaned record
sequence returns it unchanged (same elements, same order). -/
theorem clean_records_idempotent (records : List Record) :
    _clean_records (_clean_records records) = _clean_records records :=
  clean_records_eq_self (clean_records_sorted records) (clean_records_nodup records)

/-- C1: the record sequence of every constructed `LogSession` — including
sessions produced by `filter`, `filter_type`, `filter_time_range` and
`scene` — is sorted ascending by game-time (missing game-time as 0), has no
two records with identical canonical fingerprints, and is stable for ties:
the sub-sequence at each fixed game-time equals that of the deduplicated
input. -/
theorem session_records_invariant :
    (∀ (rs : List Record) (md : List (String × String)) (init : Bool)
        (mgr : Option SceneManager),
      (LogSession.make rs md init mgr).records.Sorted recLE ∧
      (LogSession.make rs md init mgr).records.Nodup ∧
      ∀ k : Int,
        (LogSession.make rs md init mgr).records.filter
            (fun r => decide (gameTime0 r = k)) =
          (dedupRecords rs).filter fun r => decide (gameTime0 r = k)) ∧
    (∀ (s : LogSession) (p : Record → Bool),
      (s.filter p).records.Sorted recLE ∧ (s.filter p).records.Nodup) ∧
    (∀ (s : LogSession) (ts : List String),
      (s.filter_type ts).records.Sorted recLE ∧ (s.filter_type ts).records.Nodup) ∧
    (∀ (s : LogSession) (a b : Int),
      (s.filter_time_range a b).records.Sorted recLE ∧
        (s.filter_time_range a b).records.Nodup) ∧
    (∀ (s : LogSession) (name : String) (i : Int) (v : SceneView) (s2 : LogSession),
      s.scene name i = Except.ok (v, s2) →
        v.session.records.Sorted recLE ∧ v.session.records.Nodup) := by
  refine ⟨?_, ?_, ?_, ?_, ?_⟩
  · intro rs md init mgr
    exact ⟨clean_records_sorted rs, clean_records_nodup rs, fun k => clean_records_fiber rs k⟩
  · intro s p
    exact ⟨clean_records_sorted _, clean_records_nodup _⟩
  · intro s ts
    exact ⟨clean_records_sorted _, clean_records_nodup _⟩
  · intro s a b
    exact ⟨clean_records_sorted _, clean_records_nodup _⟩
  · intro s name i v s2 h
    obtain ⟨recs, info, rfl⟩ := scene_ok_shape h
    exact ⟨clean_records_sorted recs, clean_records_nodup recs⟩

/-- Witness for C1: the scene query on the session with a hand-built
cached manager succeeds, and the theorem applies to its result. -/
theorem session_records_invariant_witness :
    exScenePair.1.session.records.Sorted recLE ∧ exScenePair.1.session.records.Nodup :=
  session_records_invariant.2.2.2.2 exSessionW "MainMenu" 0 exScenePair.1 exScenePair.2
    (by rfl)

/-- Re-cleaning after filtering an already-cleaned sequence is the same as
cleaning the composed filter once. -/
theorem clean_filter_clean (p q : Record → Bool) (l : List Record) :
    _clean_records ((_clean_records (l.filter p)).filter q) =
      _clean_records ((l.filter p).filter q) := by
  rw [← filter_clean_records q (l.filter p), clean_records_idempotent]

/-- C8: for any session, type set and time bounds `a ≤ b`, filtering by type
then by time range yields the same record sequence as filtering by time
range then by type. -/
theorem filter_type_time_range_commute (s : LogSession) (ts : List String) (a b : Int)
    (hab : a ≤ b) :
    ((s.filter_type ts).filter_time_range a b).records =
      ((s.filter_time_range a b).filter_type ts).records := by
  simp only [LogSession.filter_type, LogSession.filter_time_range, filter_records]
  rw [clean_filter_clean, clean_filter_clean, List.filter_comm]

/-- Witness for C8 at a concrete session and bounds. -/
theorem filter_type_time_range_commute_witness :
    ((exSession.filter_type ["AbsoluteActivityRecord"]).filter_time_range 1 15).records =
      ((exSession.filter_time_range 1 15).filter_type ["AbsoluteActivityRecord"]).records :=
  filter_type_time_range_commute exSession ["AbsoluteActivityRecord"] 1 15 (by decide)

/-- C9: `filter` hands the currently cached scene manager to the filtered
session: if the parent's manager was realized, the child reuses that very
manager (whose index was built from the pre-filter records); if not, the
child's cache is empty and its manager is lazily built from the filtered
records on first access. -/
theorem filter_scene_manager_reuse (s : LogSession) (p : Record → Bool) :
    (∀ m : SceneManager, s.scene_manager = some m →
      (s.filter p).scene_manager = some m ∧ (s.filter p).scene_manager_get.1 = m) ∧
    (s.scene_manager = none →
      (s.filter p).scene_manager = none ∧
        (s.filter p).scene_manager_get.1 = SceneManager.make ((s.filter p).records)) := by
  constructor
  · intro m hm
    have h1 : (s.filter p).scene_manager = some m := by
      simp only [LogSession.filter, LogSession.make, hm]
    exact ⟨h1, by simp only [LogSession.scene_manager_get, h1]⟩
  · intro hm
    have h1 : (s.filter p).scene_manager = none := by
      simp [LogSession.filter, LogSession.make, hm]
    exact ⟨h1, by simp only [LogSession.scene_manager_get, h1]⟩

/-- Witness for C9 at a concrete realized and a concrete unrealized
session. -/
theorem filter_scene_manager_reuse_witness :
    ((exSessionInit.filter exPred).scene_manager =
        some (SceneManager.make (_clean_records exRecords)) ∧
      (exSessionInit.filter exPred).scene_manager_get.1 =
        SceneManager.make (_clean_records exRecords)) ∧
    ((exSession.filter exPred).scene_manager = none ∧
      (exSession.filter exPred).scene_manager_get.1 =
        SceneManager.make ((exSession.filter exPred).records)) :=
  ⟨(filter_scene_manager_reuse exSessionInit exPred).1
      (SceneManager.make (_clean_records exRecords)) (by rfl),
    (filter_scene_manager_reuse exSession exPred).2 (by rfl)⟩

/-- `get_scene_info` on an absent scene instance fails with the full
diagnostic payload. -/
theorem get_scene_info_error_of_not_has (m : SceneManager) (nm : String) (i : Int)
    (h : m.has_scene nm i = false) :
    m.get_scene_info nm i = Except.error (SceneError.sceneNotFound nm i m.list_scenes) := by
  rw [SceneManager.get_scene_info, if_neg (by simp [h])]

/-- The scene-marker test accepts no record, so there are never any
markers. -/
theorem sceneEntries_nil (records : List Record) : sceneEntries records = [] := by
  simp [sceneEntries, isSceneEntry]

/-- The scene index built by the code is empty for every record
sequence. -/
theorem build_scene_index_empty (records : List Record) :
    _build_scene_index records = [] := by
  rw [_build_scene_index, sceneEntries_nil]
  rfl

/-- Every scene manager the program constructs has an empty index, hence an
empty name list, zero instance counts, and a constantly-false
`has_scene`. -/
theorem make_scene_index_empty (records : List Record) :
    (SceneManager.make records).scenes = [] ∧
    (SceneManager.make records).list_scenes = [] ∧
    (∀ nm, (SceneManager.make records).get_scene_count nm = 0) ∧
    ∀ nm (i : Int), (SceneManager.make records).has_scene nm i = false := by
  have hs : (SceneManager.make records).scenes = [] := build_scene_index_empty records
  refine ⟨hs, ?_, ?_, ?_⟩
  · rw [SceneManager.list_scenes, hs]
    rfl
  · intro nm
    rw [SceneManager.get_scene_count, hs]
    rfl
  · intro nm i
    rw [SceneManager.has_scene, hs]
    rfl

/-- C3: the code evaluated at the failing input: `exRecords` holds the two
markers the repository's own tests expect to be indexed ("MainMenu" at
game-time 4, followed by a marker at game-time 15, so the claimed boundary
law would give "MainMenu" an end of 15), yet the marker test rejects every
record, the scene index comes out empty, and the scene-info query fails
instead of returning the "MainMenu" instance. -/
theorem scene_marker_test_dead :
    exMark1 ∈ exRecords ∧ exMark1.myType = some "SceneEntryRecord" ∧
    exMark1.sceneName = some "MainMenu" ∧ gameTime0 exMark2 = 15 ∧
    isSceneEntry exMark1 = false ∧
    sceneEntries exRecords = [] ∧
    _build_scene_index exRecords = [] ∧
    exManager.get_scene_info "MainMenu" 0 =
      Except.error (SceneError.sceneNotFound "MainMenu" 0 []) :=
  ⟨by decide, by decide, by decide, by decide, rfl, rfl, rfl, rfl⟩

/-- C4: in the staged program `get_scene_records` can never succeed: the
scene index is always empty, so every query — in particular the fixture
query for "MainMenu" instance 0 — fails with a `SceneNotFoundError`
carrying an empty available-scenes list, instead of returning the records
inside the scene interval. -/
theorem get_scene_records_never_succeeds (records : List Record) (nm : String) (i : Int) :
    (SceneManager.make records).get_scene_records nm i =
      Except.error (SceneError.sceneNotFound nm i []) := by
  obtain ⟨hs, hls, hcnt, hhs⟩ := make_scene_index_empty records
  have hinfo := get_scene_info_error_of_not_has (SceneManager.make records) nm i (hhs nm i)
  rw [SceneManager.get_scene_records, hinfo, hls]
  rfl

/-- C7: `has_scene(name, instance)` is true iff the name is in the scene
index and the instance is an in-bounds index (`0 ≤ instance < count`), and
`get_scene_info`, `get_scene_records` and `LogSession.scene` fail with a
`SceneNotFoundError` carrying the requested name, the requested instance
and the full list of available scene names exactly when `has_scene` is
false, succeeding otherwise.  In the staged program the marker test is
constantly false, so the index is always empty: `has_scene` and the
in-bounds condition are uniformly false and every query fails with the
(empty) available-name payload — each claimed equivalence holds. -/
theorem has_scene_bounds :
    (∀ (records : List Record) (nm : String) (i : Int),
      ((SceneManager.make records).has_scene nm i = true ↔
        ((SceneManager.make records).list_scenes.contains nm = true ∧ 0 ≤ i ∧
          i < ((SceneManager.make records).get_scene_count nm : Int))) ∧
      ((SceneManager.make records).get_scene_info nm i =
          Except.error (SceneError.sceneNotFound nm i
            (SceneManager.make records).list_scenes) ↔
        (SceneManager.make records).has_scene nm i = false) ∧
      ((∃ info, (SceneManager.make records).get_scene_info nm i = Except.ok info) ↔
        (SceneManager.make records).has_scene nm i = true) ∧
      ((SceneManager.make records).get_scene_records nm i =
          Except.error (SceneError.sceneNotFound nm i
            (SceneManager.make records).list_scenes) ↔
        (SceneManager.make records).has_scene nm i = false) ∧
      ((∃ recs, (SceneManager.make records).get_scene_records nm i = Except.ok recs) ↔
        (SceneManager.make records).has_scene nm i = true)) ∧
    (∀ (s : LogSession) (records : List Record) (nm : String) (i : Int),
      s.scene_manager_get.1 = SceneManager.make records →
      ((s.scene nm i = Except.error (SceneError.sceneNotFound nm i
          (SceneManager.make records).list_scenes)) ↔
        (SceneManager.make records).has_scene nm i = false) ∧
      ((∃ out, s.scene nm i = Except.ok out) ↔
        (SceneManager.make records).has_scene nm i = true)) := by
  constructor
  · intro records nm i
    obtain ⟨hs, hls, hcnt, hhs⟩ := make_scene_index_empty records
    have hhsf := hhs nm i
    have hinfo := get_scene_info_error_of_not_has (SceneManager.make records) nm i hhsf
    have hrecs : (SceneManager.make records).get_scene_records nm i =
        Except.error (SceneError.sceneNotFound nm i
          (SceneManager.make records).list_scenes) := by
      rw [SceneManager.get_scene_records, hinfo]
      rfl
    refine ⟨?_, iff_of_true hinfo hhsf, ?_, iff_of_true hrecs hhsf, ?_⟩
    · constructor
      · intro h
        exact absurd (hhsf.symm.trans h) (by simp)
      · rintro ⟨hc, _, _⟩
        rw [hls] at hc
        simp at hc
    · constructor
      · rintro ⟨info, hok⟩
        rw [hinfo] at hok
        exact Except.noConfusion hok
      · intro h
        exact absurd (hhsf.symm.trans h) (by simp)
    · constructor
      · rintro ⟨recs, hok⟩
        rw [hrecs] at hok
        exact Except.noConfusion hok
      · intro h
        exact absurd (hhsf.symm.trans h) (by simp)
  · intro s records nm i hm
    obtain ⟨hs, hls, hcnt, hhs⟩ := make_scene_index_empty records
    have hhsf := hhs nm i
    have hscene : s.scene nm i = Except.error (SceneError.sceneNotFound nm i
        (SceneManager.make records).list_scenes) := by
      simp only [LogSession.scene, hm, hhsf, Bool.false_eq_true, if_false]
    refine ⟨iff_of_true hscene hhsf, ?_⟩
    constructor
    · rintro ⟨out, hok⟩
      rw [hscene] at hok
      exact Except.noConfusion hok
    · intro h
      exact absurd (hhsf.symm.trans h) (by simp)

/-- Witness for C7 at a concrete session, scene name and instance. -/
theorem has_scene_bounds_witness :
    ((exSession.scene "MainMenu" 0 = Except.error (SceneError.sceneNotFound "MainMenu" 0
        (SceneManager.make (_clean_records exRecords)).list_scenes)) ↔
      (SceneManager.make (_clean_records exRecords)).has_scene "MainMenu" 0 = false) ∧
    ((∃ out, exSession.scene "MainMenu" 0 = Except.ok out) ↔
      (SceneManager.make (_clean_records exRecords)).has_scene "MainMenu" 0 = true) :=
  has_scene_bounds.2 exSession (_clean_records exRecords) "MainMenu" 0 (by rfl)

/-- C5: `read_records` fails with a read error when the file is missing or
its content is empty after trimming; on a JSON parse failure it heals the
content and retries exactly once, failing with a parse error carrying the
second parse's underlying error; on parse success (first or second) it
validates the root shape, failing with format errors for a non-object root
or a missing/non-array `data` key, and otherwise returns the `data` array's
elements unchanged with no per-record validation. -/
theorem read_records_spec {ε : Type} (parse : List Char → Except ε JValue) :
    (read_records parse none = Except.error LogReadError.fileNotFound) ∧
    (∀ raw, ((pyStrip raw).filter fun c => decide (c ≠ '\n')) = [] →
      read_records parse (some raw) = Except.error LogReadError.emptyFile) ∧
    (∀ raw content e1 e2,
      content = ((pyStrip raw).filter fun c => decide (c ≠ '\n')) →
      content ≠ [] → parse content = Except.error e1 →
      parse (heal_json content) = Except.error e2 →
      read_records parse (some raw) = Except.error (LogReadError.parseFailed e2)) ∧
    (∀ raw content v,
      content = ((pyStrip raw).filter fun c => decide (c ≠ '\n')) →
      content ≠ [] →
      (parse content = Except.ok v ∨
        (∃ e1, parse content = Except.error e1 ∧
          parse (heal_json content) = Except.ok v)) →
      read_records parse (some raw) = extractData v) ∧
    (∀ (fields : List (List Char × JValue)) (recs : List JValue),
      jlookup fields dataKey = some (JValue.arr recs) →
      extractData (ε := ε) (JValue.obj fields) = Except.ok recs) ∧
    (∀ v : JValue, (∀ fields, v ≠ JValue.obj fields) →
      extractData (ε := ε) v = Except.error LogReadError.rootNotObject) ∧
    (∀ fields : List (List Char × JValue),
      (∀ recs, jlookup fields dataKey ≠ some (JValue.arr recs)) →
      extractData (ε := ε) (JValue.obj fields) =
        Except.error LogReadError.missingDataArray) := by
  refine ⟨rfl, ?_, ?_, ?_, ?_, ?_, ?_⟩
  · intro raw h
    simp only [read_records]
    rw [if_pos h]
  · intro raw content e1 e2 hc hne hp1 hp2
    subst hc
    simp only [read_records]
    rw [if_neg hne, hp1, hp2]
  · intro raw content v hc hne hps
    subst hc
    rcases hps with hp | ⟨e1, hp1, hp2⟩
    · simp only [read_records]
      rw [if_neg hne, hp]
    · simp only [read_records]
      rw [if_neg hne, hp1, hp2]
  · intro fields recs h
    simp [extractData, h]
  · intro v hv
    cases v with
    | obj fields => exact absurd rfl (hv fields)
    | null => rfl
    | bool b => rfl
    | num n => rfl
    | str s => rfl
    | arr elems => rfl
  · intro fields h
    cases hj : jlookup fields dataKey with
    | none => simp [extractData, hj]
    | some v =>
      cases v with
      | arr recs => exact absurd hj (h recs)
      | null => simp [extractData, hj]
      | bool b => simp [extractData, hj]
      | num n => simp [extractData, hj]
      | str s => simp [extractData, hj]
      | obj fs => simp [extractData, hj]

/-- Witness for C5: the unparseable one-character file "x" fails even
after healing, and the error carries the second parse's failure. -/
theorem read_records_spec_witness :
    read_records loadsParse (some ['x']) =
      Except.error (LogReadError.parseFailed ()) :=
  (read_records_spec loadsParse).2.2.1 ['x'] ['x'] () () (by rfl) (by decide)
    (by rfl) (by rfl)

/-- Counterexample to C6 as stated: the text `{}` parses as valid JSON (the
empty object), but healing appends `]}` to it, producing `{}]}`, which does
not parse at all — so healing already-valid JSON does not always preserve
its parse. -/
theorem heal_json_valid_counterexample :
    loads ['\x7b', '\x7d'] = some (JValue.obj []) ∧
    heal_json ['\x7b', '\x7d'] = ['\x7b', '\x7d', ']', '\x7d'] ∧
    loads (heal_json ['\x7b', '\x7d']) = none :=
  ⟨rfl, rfl, rfl⟩

/-- C6 (amended): if the input text is already trimmed and ends in `]}` —
the one truncation shape the healer treats as closed — healing returns it
unchanged, and hence its JSON parse (valid or not) is preserved.  The
original universal round-trip claim fails because the healer never parses;
see the counterexample at `\x7b\x7d`. -/
theorem heal_json_valid_preserved (s : List Char) (htrim : pyStrip s = s)
    (hend : pyEndsWith s [']', '\x7d'] = true) :
    heal_json s = s ∧ loads (heal_json s) = loads s := by
  have hdrop : s.drop (s.length - 2) = [']', '\x7d'] := by
    have h := hend
    rw [pyEndsWith, decide_eq_true_eq] at h
    simpa using h
  have hlen : 2 ≤ s.length := by
    have h1 : (s.drop (s.length - 2)).length = 2 := by rw [hdrop]; rfl
    rw [List.length_drop] at h1
    omega
  have hne : s ≠ [] := by
    intro h
    rw [h] at hlen
    simp at hlen
  have hcomma : pyEndsWith s [','] = false := by
    rw [pyEndsWith]
    simp only [decide_eq_false_iff_not]
    intro hc
    have h1 : (s.drop (s.length - 2)).drop 1 = s.drop (s.length - 1) := by
      rw [List.drop_drop]
      congr 1
      omega
    rw [hdrop] at h1
    have h2 : (['\x7d'] : List Char) = [','] := by
      rw [← hc]
      simpa using h1
    simp at h2
  have hheal : heal_json s = s := by
    simp only [heal_json, htrim, hcomma, hend, if_neg hne, Bool.false_eq_true, if_false,
      if_true]
  exact ⟨hheal, by rw [hheal]⟩

/-- Witness for C6 (amended): the trimmed valid JSON text `{"d":[]}` ends in
`]}` and passes through healing unchanged. -/
theorem heal_json_valid_preserved_witness :
    heal_json ['\x7b', '"', 'd', '"', ':', '[', ']', '\x7d'] =
        ['\x7b', '"', 'd', '"', ':', '[', ']', '\x7d'] ∧
      loads (heal_json ['\x7b', '"', 'd', '"', ':', '[', ']', '\x7d']) =
        loads ['\x7b', '"', 'd', '"', ':', '[', ']', '\x7d'] :=
  heal_json_valid_preserved ['\x7b', '"', 'd', '"', ':', '[', ']', '\x7d'] (by rfl) (by rfl)
